import Mathlib

/-!
Shallow embedding of `src/clippy_lints/src/floating_point_arithmetic.rs`:
the `FLOATING_POINT_IMPROVEMENTS` lint pass. Expressions are modelled by an
inductive HIR-like tree; the constant-folding oracle and the type tables are
fields of a `Context`; each matcher returns `Option (List Suggestion)`, where
`none` models an out-of-bounds operand-index panic and `some l` the list of
suggestions the matcher hands to `span_lint_and_sugg`, in emission order.
Floating-point constants are represented by their exact rational values, with
the width tag (`F32`/`F64`) kept separate as in the source's `Constant` enum.
-/

/-- Static types, as far as this lint inspects them: `expr_ty(..).is_floating_point()`. -/
inductive Ty where
  | f32
  | f64
  | int
  | other
deriving DecidableEq, Repr

def Ty.is_floating_point : Ty → Bool
  | .f32 => true
  | .f64 => true
  | _ => false

/-- The constant-evaluator's value type (`crate::consts::Constant`, restricted to the
`F32`/`F64` variants this file uses). The payload is the exact rational value of the
IEEE float the source compares against. -/
inductive Constant where
  | F32 (v : ℚ)
  | F64 (v : ℚ)
deriving DecidableEq, Repr

/-- An odd natural is coprime to every power of two (used to build the exact
rational values of the IEEE constants in already-reduced form, so that
comparisons against them compute). -/
theorem coprime_two_pow_of_odd (m k : ℕ) (h : ¬ 2 ∣ m) : Nat.Coprime m (2 ^ k) :=
  Nat.Coprime.pow_right k ((Nat.coprime_comm).1 ((Nat.prime_two.coprime_iff_not_dvd).2 h))

/-- Exact value of `std::f32::consts::E` (the `f32` nearest to Euler's number),
`2850325 / 2^20`. -/
def f32_E : ℚ := ⟨2850325, 1048576, by norm_num, by
  have h : (1048576 : ℕ) = 2 ^ 20 := by norm_num
  rw [h]; exact coprime_two_pow_of_odd _ _ (by omega)⟩

/-- Exact value of `std::f64::consts::E` (the `f64` nearest to Euler's number),
`6121026514868073 / 2^51`. -/
def f64_E : ℚ := ⟨6121026514868073, 2251799813685248, by norm_num, by
  have h : (2251799813685248 : ℕ) = 2 ^ 51 := by norm_num
  rw [h]; exact coprime_two_pow_of_odd _ _ (by omega)⟩

/-- Exact value of the `f32` quotient `1.0 / 2.0` (exactly one half). -/
def f32_half : ℚ := ⟨1, 2, by norm_num, Nat.coprime_one_left 2⟩

/-- Exact value of the `f64` quotient `1.0 / 2.0` (exactly one half). -/
def f64_half : ℚ := ⟨1, 2, by norm_num, Nat.coprime_one_left 2⟩

/-- Exact value of the `f32` quotient `1.0 / 3.0`, `11184811 / 2^25`. -/
def f32_one_third : ℚ := ⟨11184811, 33554432, by norm_num, by
  have h : (33554432 : ℕ) = 2 ^ 25 := by norm_num
  rw [h]; exact coprime_two_pow_of_odd _ _ (by omega)⟩

/-- Exact value of the `f64` quotient `1.0 / 3.0`, `6004799503160661 / 2^54`. -/
def f64_one_third : ℚ := ⟨6004799503160661, 18014398509481984, by norm_num, by
  have h : (18014398509481984 : ℕ) = 2 ^ 54 := by norm_num
  rw [h]; exact coprime_two_pow_of_odd _ _ (by omega)⟩

/-- `rustc::hir::BinOpKind`, restricted to the operators this lint distinguishes. -/
inductive BinOpKind where
  | add
  | sub
  | mul
  | div
deriving DecidableEq, Repr

def BinOpKind.snippet : BinOpKind → String
  | .add => "+"
  | .sub => "-"
  | .mul => "*"
  | .div => "/"

/-- HIR expression nodes, restricted to the shapes this lint inspects:
named method calls (`args` holds the receiver first, then the arguments,
as in `ExprKind::MethodCall`), binary operators, and atomic leaves that
carry their source snippet. -/
inductive Expr where
  | lit (snippet : String)
  | path (snippet : String)
  | binary (op : BinOpKind) (lhs rhs : Expr)
  | methodCall (name : String) (args : List Expr)
deriving Repr

/-- Whether `sugg::Sugg` classifies the expression as needing parentheses
when used as a method-call receiver (binary-operator expressions do). -/
def needsPar : Expr → Bool
  | .binary _ _ _ => true
  | _ => false

mutual

/-- The source snippet of an expression (what `sugg::Sugg::hir` reads from the span). -/
def render : Expr → String
  | .lit s => s
  | .path s => s
  | .binary op l r => render l ++ " " ++ op.snippet ++ " " ++ render r
  | .methodCall m args => renderCall m args

def renderCall (m : String) : List Expr → String
  | [] => "." ++ m ++ "()"
  | r :: rest =>
      (if needsPar r then "(" ++ render r ++ ")" else render r)
        ++ "." ++ m ++ "(" ++ renderArgs rest ++ ")"

def renderArgs : List Expr → String
  | [] => ""
  | [a] => render a
  | a :: b :: rest => render a ++ ", " ++ renderArgs (b :: rest)

end

/-- `sugg::Sugg`: a snippet together with whether the underlying expression is a
binary-operator shape (which `maybe_par` would parenthesize). -/
structure Sugg where
  snippet : String
  isBinOpShape : Bool
deriving DecidableEq, Repr

def Sugg.hir (e : Expr) : Sugg := ⟨render e, needsPar e⟩

def Sugg.maybe_par (s : Sugg) : Sugg :=
  if s.isBinOpShape then ⟨"(" ++ s.snippet ++ ")", false⟩ else s

/-- `rustc_errors::Applicability`. -/
inductive Applicability where
  | MachineApplicable
  | MaybeIncorrect
  | HasPlaceholders
  | Unspecified
deriving DecidableEq, Repr

/-- One suggestion record as handed to `span_lint_and_sugg`: the span (the matched
node), the lint message, the help label, the replacement text, the applicability. -/
structure Suggestion where
  span : Expr
  msg : String
  help : String
  sugg : String
  applicability : Applicability
deriving Repr

def span_lint_and_sugg (span : Expr) (msg help sugg : String)
    (applicability : Applicability) : Suggestion :=
  ⟨span, msg, help, sugg, applicability⟩

/-- The slice of `LateContext` this lint consumes: the type tables
(`cx.tables.expr_ty`) and the constant evaluator (`crate::consts::constant`,
which returns the folded value paired with a divergence flag the lint ignores). -/
structure Context where
  expr_ty : Expr → Ty
  constant : Expr → Option (Constant × Bool)

/-- The `method` selection of `check_log_base` (lines 69–79): which built-in
logarithm the constant base maps to, `none` modelling the early `return`. -/
def log_base_method (value : Constant) : Option String :=
  if Constant.F32 2 = value ∨ Constant.F64 2 = value then some "log2"
  else if Constant.F32 10 = value ∨ Constant.F64 10 = value then some "log10"
  else if Constant.F32 f32_E = value ∨ Constant.F64 f64_E = value then some "ln"
  else none

/-- `check_log_base` (lines 65–91): on `RECEIVER.log(ARG)`, if `ARG` folds to
2, 10 or e (either width), suggest `RECEIVER.log2()` / `.log10()` / `.ln()`. -/
def check_log_base (cx : Context) (expr : Expr) (args : List Expr) :
    Option (List Suggestion) :=
  match args[0]? with
  | none => none
  | some arg0 =>
    let arg := (Sugg.hir arg0).maybe_par
    match args[1]? with
    | none => none
    | some arg1 =>
      match cx.constant arg1 with
      | some (value, _) =>
        match log_base_method value with
        | some method =>
            some [span_lint_and_sugg expr
              "logarithm for bases 2, 10 and e can be computed more accurately"
              "consider using"
              (arg.snippet ++ "." ++ method ++ "()")
              .MachineApplicable]
        | none => some []
      | none => some []

/-- `check_ln1p` (lines 95–115): on `RECEIVER.ln()` where `RECEIVER` is
`LHS + RHS` and `LHS` folds to 1 (either width), suggest `RHS.ln_1p()`. -/
def check_ln1p (cx : Context) (expr : Expr) (args : List Expr) :
    Option (List Suggestion) :=
  match args[0]? with
  | none => none
  | some arg0 =>
    match arg0 with
    | .binary op lhs rhs =>
      if op = .add then
        match cx.constant lhs with
        | some (value, _) =>
          if Constant.F32 1 = value ∨ Constant.F64 1 = value then
            let arg := (Sugg.hir rhs).maybe_par
            some [span_lint_and_sugg expr
              "ln(1 + x) can be computed more accurately"
              "consider using"
              (arg.snippet ++ ".ln_1p()")
              .MachineApplicable]
          else some []
        | none => some []
      else some []
    | _ => some []

/-- The `help`/`method` selection of the "Check argument" half of `check_powf`
(lines 143–154): which root the constant exponent maps to, with its message. -/
def powf_exponent_method (value : Constant) : Option (String × String) :=
  if Constant.F32 f32_half = value ∨ Constant.F64 f64_half = value then
    some ("square-root of a number can be computed more efficiently and accurately",
          "sqrt")
  else if Constant.F32 f32_one_third = value ∨ Constant.F64 f64_one_third = value then
    some ("cube-root of a number can be computed more accurately", "cbrt")
  else none

/-- The "Check argument" half of `check_powf` (lines 141–165): if `ARG` folds to
`1.0 / 2.0` or `1.0 / 3.0` (either width), suggest `RECEIVER.sqrt()` / `.cbrt()`.
Note line 162 renders the receiver without `maybe_par`. -/
def check_powf_exponent (cx : Context) (expr : Expr) (args : List Expr) :
    Option (List Suggestion) :=
  match args[1]? with
  | none => none
  | some arg1 =>
    match cx.constant arg1 with
    | some (value, _) =>
      match powf_exponent_method value with
      | some (help, method) =>
        match args[0]? with
        | none => none
        | some arg0 =>
            some [span_lint_and_sugg expr help "consider using"
              ((Sugg.hir arg0).snippet ++ "." ++ method ++ "()")
              .MachineApplicable]
      | none => some []
    | none => some []

/-- The `method` selection of the "Check receiver" half of `check_powf`
(lines 120–128): which exponential the constant base maps to, `none`
modelling the early `return` that also skips the argument half. -/
def powf_base_method (value : Constant) : Option String :=
  if Constant.F32 f32_E = value ∨ Constant.F64 f64_E = value then some "exp"
  else if Constant.F32 2 = value ∨ Constant.F64 2 = value then some "exp2"
  else none

/-- `check_powf` (lines 117–166): the "Check receiver" half; when the receiver
folds to a constant that is neither e nor 2 the function returns early,
otherwise control falls through to the exponent half. -/
def check_powf (cx : Context) (expr : Expr) (args : List Expr) :
    Option (List Suggestion) :=
  match args[0]? with
  | none => none
  | some arg0 =>
    match cx.constant arg0 with
    | some (value, _) =>
      match powf_base_method value with
      | some method =>
        match args[1]? with
        | none => none
        | some arg1 =>
          let s := span_lint_and_sugg expr
            "exponent for bases 2 and e can be computed more accurately"
            "consider using"
            (((Sugg.hir arg1).maybe_par).snippet ++ "." ++ method ++ "()")
            .MachineApplicable
          match check_powf_exponent cx expr args with
          | none => none
          | some rest => some (s :: rest)
      | none => some []
    | none => check_powf_exponent cx expr args

/-- `check_expm1` (lines 170–194): on `LHS - RHS` with floating `LHS`, `RHS`
folding to 1, and `LHS` a method call named `exp`, suggest
`(exp's receiver).exp_m1()` (no arity check on the `exp` call). -/
def check_expm1 (cx : Context) (expr : Expr) : Option (List Suggestion) :=
  match expr with
  | .binary op lhs rhs =>
    if op = .sub then
      if (cx.expr_ty lhs).is_floating_point then
        match cx.constant rhs with
        | some (value, _) =>
          if Constant.F32 1 = value ∨ Constant.F64 1 = value then
            match lhs with
            | .methodCall name method_args =>
              if name = "exp" then
                match method_args[0]? with
                | none => none
                | some m0 =>
                  some [span_lint_and_sugg expr
                    "(e.pow(x) - 1) can be computed more accurately"
                    "consider using"
                    ((Sugg.hir m0).snippet ++ ".exp_m1()")
                    .MachineApplicable]
              else some []
            | _ => some []
          else some []
        | none => some []
      else some []
    else some []
  | _ => some []

/-- `FloatingPointArithmetic::check_expr` (lines 196–213): the dispatcher. -/
def check_expr (cx : Context) (expr : Expr) : Option (List Suggestion) :=
  match expr with
  | .methodCall name args =>
    match args[0]? with
    | none => none
    | some recv =>
      if (cx.expr_ty recv).is_floating_point then
        match name with
        | "ln" => check_ln1p cx expr args
        | "log" => check_log_base cx expr args
        | "powf" => check_powf cx expr args
        | _ => some []
      else some []
  | _ => check_expm1 cx expr

/-! ## Shared notions and helper lemmas -/

/-- A matcher outcome that emitted at least one suggestion (and in particular did
not hit an out-of-bounds operand access). -/
def emits (o : Option (List Suggestion)) : Prop := ∃ l s, o = some l ∧ s ∈ l

/-- The well-formedness the host's HIR guarantees for a visited node: a method
call carries at least its receiver, and a `log`/`powf` call carries its receiver
and one argument; the left operand of a binary node, if a method call, carries
its receiver. -/
def nodeWF : Expr → Prop
  | .methodCall name args =>
      args ≠ [] ∧ ((name = "log" ∨ name = "powf") → 2 ≤ args.length)
  | .binary _ lhs _ =>
      match lhs with
      | .methodCall _ margs => margs ≠ []
      | _ => True
  | _ => True

theorem log_base_method_eq_none {v : Constant}
    (h1 : v ≠ .F32 2) (h2 : v ≠ .F64 2) (h3 : v ≠ .F32 10) (h4 : v ≠ .F64 10)
    (h5 : v ≠ .F32 f32_E) (h6 : v ≠ .F64 f64_E) : log_base_method v = none := by
  have c1 : ¬ (Constant.F32 2 = v ∨ Constant.F64 2 = v) :=
    fun h => h.elim (fun h => h1 h.symm) (fun h => h2 h.symm)
  have c2 : ¬ (Constant.F32 10 = v ∨ Constant.F64 10 = v) :=
    fun h => h.elim (fun h => h3 h.symm) (fun h => h4 h.symm)
  have c3 : ¬ (Constant.F32 f32_E = v ∨ Constant.F64 f64_E = v) :=
    fun h => h.elim (fun h => h5 h.symm) (fun h => h6 h.symm)
  unfold log_base_method
  rw [if_neg c1, if_neg c2, if_neg c3]

theorem powf_base_method_eq_none {v : Constant}
    (h1 : v ≠ .F32 f32_E) (h2 : v ≠ .F64 f64_E) (h3 : v ≠ .F32 2) (h4 : v ≠ .F64 2) :
    powf_base_method v = none := by
  have c1 : ¬ (Constant.F32 f32_E = v ∨ Constant.F64 f64_E = v) :=
    fun h => h.elim (fun h => h1 h.symm) (fun h => h2 h.symm)
  have c2 : ¬ (Constant.F32 2 = v ∨ Constant.F64 2 = v) :=
    fun h => h.elim (fun h => h3 h.symm) (fun h => h4 h.symm)
  unfold powf_base_method
  rw [if_neg c1, if_neg c2]

theorem powf_exponent_method_eq_none {v : Constant}
    (h1 : v ≠ .F32 f32_half) (h2 : v ≠ .F64 f64_half)
    (h3 : v ≠ .F32 f32_one_third) (h4 : v ≠ .F64 f64_one_third) :
    powf_exponent_method v = none := by
  have c1 : ¬ (Constant.F32 f32_half = v ∨ Constant.F64 f64_half = v) :=
    fun h => h.elim (fun h => h1 h.symm) (fun h => h2 h.symm)
  have c2 : ¬ (Constant.F32 f32_one_third = v ∨ Constant.F64 f64_one_third = v) :=
    fun h => h.elim (fun h => h3 h.symm) (fun h => h4 h.symm)
  unfold powf_exponent_method
  rw [if_neg c1, if_neg c2]

/-! ## C6: the logarithm-base matcher -/

/-- C6: for every dispatched node `RECEIVER.log(ARG)` with floating-point
receiver: a constant argument 2 (either width) yields the `RECEIVER.log2()`
suggestion with the rationale "logarithm for bases 2, 10 and e can be computed
more accurately" and machine-applicable applicability; 10 yields
`RECEIVER.log10()`; Euler's number yields `RECEIVER.ln()`; a non-constant or
any other constant argument yields no suggestion. -/
theorem log_base_dispatch_cases (cx : Context) (a0 a1 : Expr) (rest : List Expr)
    (hfp : (cx.expr_ty a0).is_floating_point = true) :
    (∀ t, (cx.constant a1 = some (.F32 2, t) ∨ cx.constant a1 = some (.F64 2, t)) →
        check_expr cx (.methodCall "log" (a0 :: a1 :: rest)) =
          some [⟨.methodCall "log" (a0 :: a1 :: rest),
            "logarithm for bases 2, 10 and e can be computed more accurately",
            "consider using",
            ((Sugg.hir a0).maybe_par).snippet ++ ".log2()", .MachineApplicable⟩])
    ∧ (∀ t, (cx.constant a1 = some (.F32 10, t) ∨ cx.constant a1 = some (.F64 10, t)) →
        check_expr cx (.methodCall "log" (a0 :: a1 :: rest)) =
          some [⟨.methodCall "log" (a0 :: a1 :: rest),
            "logarithm for bases 2, 10 and e can be computed more accurately",
            "consider using",
            ((Sugg.hir a0).maybe_par).snippet ++ ".log10()", .MachineApplicable⟩])
    ∧ (∀ t, (cx.constant a1 = some (.F32 f32_E, t) ∨ cx.constant a1 = some (.F64 f64_E, t)) →
        check_expr cx (.methodCall "log" (a0 :: a1 :: rest)) =
          some [⟨.methodCall "log" (a0 :: a1 :: rest),
            "logarithm for bases 2, 10 and e can be computed more accurately",
            "consider using",
            ((Sugg.hir a0).maybe_par).snippet ++ ".ln()", .MachineApplicable⟩])
    ∧ (cx.constant a1 = none →
        check_expr cx (.methodCall "log" (a0 :: a1 :: rest)) = some [])
    ∧ (∀ t v, cx.constant a1 = some (v, t) →
        v ≠ .F32 2 → v ≠ .F64 2 → v ≠ .F32 10 → v ≠ .F64 10 →
        v ≠ .F32 f32_E → v ≠ .F64 f64_E →
        check_expr cx (.methodCall "log" (a0 :: a1 :: rest)) = some []) := by
  refine ⟨?_, ?_, ?_, ?_, ?_⟩
  · rintro t (h | h)
    · have hm : log_base_method (.F32 2) = some "log2" := by decide
      simp [check_expr, check_log_base, h, hfp, hm, span_lint_and_sugg, String.append_assoc]
    · have hm : log_base_method (.F64 2) = some "log2" := by decide
      simp [check_expr, check_log_base, h, hfp, hm, span_lint_and_sugg, String.append_assoc]
  · rintro t (h | h)
    · have hm : log_base_method (.F32 10) = some "log10" := by decide
      simp [check_expr, check_log_base, h, hfp, hm, span_lint_and_sugg, String.append_assoc]
    · have hm : log_base_method (.F64 10) = some "log10" := by decide
      simp [check_expr, check_log_base, h, hfp, hm, span_lint_and_sugg, String.append_assoc]
  · rintro t (h | h)
    · have hm : log_base_method (.F32 f32_E) = some "ln" := by decide
      simp [check_expr, check_log_base, h, hfp, hm, span_lint_and_sugg, String.append_assoc]
    · have hm : log_base_method (.F64 f64_E) = some "ln" := by decide
      simp [check_expr, check_log_base, h, hfp, hm, span_lint_and_sugg, String.append_assoc]
  · intro h
    simp [check_expr, check_log_base, h, hfp]
  · intro t v h h1 h2 h3 h4 h5 h6
    simp [check_expr, check_log_base, h, hfp,
      log_base_method_eq_none h1 h2 h3 h4 h5 h6]

/-- A concrete evaluator/typing context exercising the log-base matcher. -/
def ctx_w6 : Context :=
  { expr_ty := fun _ => Ty.f32
  , constant := fun e =>
      match e with
      | .lit "2.0" => some (.F32 2, false)
      | .lit "10.0" => some (.F32 10, false)
      | .path "E" => some (.F32 f32_E, false)
      | .lit "3.0" => some (.F32 3, false)
      | _ => none }

/-- Witness for C6 at concrete inputs: `x.log(2.0)` suggests `x.log2()`,
`x.log(10.0)` suggests `x.log10()`, `x.log(E)` suggests `x.ln()`, while a
non-constant base `x.log(y)` and the base `x.log(3.0)` suggest nothing. -/
theorem log_base_dispatch_cases_witness :
    check_expr ctx_w6 (.methodCall "log" [.path "x", .lit "2.0"]) =
      some [⟨.methodCall "log" [.path "x", .lit "2.0"],
        "logarithm for bases 2, 10 and e can be computed more accurately",
        "consider using", "x.log2()", .MachineApplicable⟩]
    ∧ check_expr ctx_w6 (.methodCall "log" [.path "x", .lit "10.0"]) =
      some [⟨.methodCall "log" [.path "x", .lit "10.0"],
        "logarithm for bases 2, 10 and e can be computed more accurately",
        "consider using", "x.log10()", .MachineApplicable⟩]
    ∧ check_expr ctx_w6 (.methodCall "log" [.path "x", .path "E"]) =
      some [⟨.methodCall "log" [.path "x", .path "E"],
        "logarithm for bases 2, 10 and e can be computed more accurately",
        "consider using", "x.ln()", .MachineApplicable⟩]
    ∧ check_expr ctx_w6 (.methodCall "log" [.path "x", .path "y"]) = some []
    ∧ check_expr ctx_w6 (.methodCall "log" [.path "x", .lit "3.0"]) = some [] := by
  refine ⟨?_, ?_, ?_, ?_, ?_⟩
  · exact (log_base_dispatch_cases ctx_w6 (.path "x") (.lit "2.0") [] rfl).1
      false (Or.inl rfl)
  · exact (log_base_dispatch_cases ctx_w6 (.path "x") (.lit "10.0") [] rfl).2.1
      false (Or.inl rfl)
  · exact (log_base_dispatch_cases ctx_w6 (.path "x") (.path "E") [] rfl).2.2.1
      false (Or.inl rfl)
  · exact (log_base_dispatch_cases ctx_w6 (.path "x") (.path "y") [] rfl).2.2.2.1 rfl
  · exact (log_base_dispatch_cases ctx_w6 (.path "x") (.lit "3.0") [] rfl).2.2.2.2
      false (.F32 3) rfl (by decide) (by decide) (by decide) (by decide)
      (by decide) (by decide)

/-! ## C2: the ln(1+x) matcher -/

/-- C2: for every node `RECEIVER.ln()` whose receiver is a binary addition
`LHS + RHS`, a suggestion `RHS.ln_1p()` is emitted iff `LHS` folds to the
constant 1 (either width); `RHS` need not be constant, and a constant 1 in the
right operand alone triggers nothing. -/
theorem ln1p_left_operand_one_iff (cx : Context) (e l r : Expr) (rest : List Expr) :
    (emits (check_ln1p cx e (.binary .add l r :: rest)) ↔
      ∃ t, cx.constant l = some (.F32 1, t) ∨ cx.constant l = some (.F64 1, t))
    ∧ (∀ t, (cx.constant l = some (.F32 1, t) ∨ cx.constant l = some (.F64 1, t)) →
        check_ln1p cx e (.binary .add l r :: rest) =
          some [⟨e, "ln(1 + x) can be computed more accurately", "consider using",
                 ((Sugg.hir r).maybe_par).snippet ++ ".ln_1p()", .MachineApplicable⟩])
    ∧ (∀ t, cx.constant l = none →
        (cx.constant r = some (.F32 1, t) ∨ cx.constant r = some (.F64 1, t)) →
        check_ln1p cx e (.binary .add l r :: rest) = some []) := by
  have hpos : ∀ t, (cx.constant l = some (.F32 1, t) ∨ cx.constant l = some (.F64 1, t)) →
      check_ln1p cx e (.binary .add l r :: rest) =
        some [⟨e, "ln(1 + x) can be computed more accurately", "consider using",
               ((Sugg.hir r).maybe_par).snippet ++ ".ln_1p()", .MachineApplicable⟩] := by
    rintro t (h | h) <;> simp [check_ln1p, h, span_lint_and_sugg]
  refine ⟨⟨?_, ?_⟩, hpos, ?_⟩
  · rintro ⟨L, s, hres, hmem⟩
    match hc : cx.constant l with
    | none =>
        rw [show check_ln1p cx e (.binary .add l r :: rest) = some [] by
          simp [check_ln1p, hc]] at hres
        injection hres with h
        subst h
        exact absurd hmem (List.not_mem_nil s)
    | some (v, t) =>
        by_cases hv : Constant.F32 1 = v ∨ Constant.F64 1 = v
        · refine ⟨t, ?_⟩
          rcases hv with h | h
          · exact Or.inl (by rw [← h])
          · exact Or.inr (by rw [← h])
        · rw [show check_ln1p cx e (.binary .add l r :: rest) = some [] by
            simp [check_ln1p, hc, hv]] at hres
          injection hres with h
          subst h
          exact absurd hmem (List.not_mem_nil s)
  · rintro ⟨t, h⟩
    exact ⟨_, _, hpos t h, List.mem_singleton.2 rfl⟩
  · intro t h _
    simp [check_ln1p, h]

/-- A concrete context where `1.0` folds to the double-width constant 1. -/
def ctx_w2 : Context :=
  { expr_ty := fun _ => Ty.f64
  , constant := fun e =>
      match e with
      | .lit "1.0" => some (.F64 1, false)
      | _ => none }

/-- Witness for C2: `(1.0 + x).ln()` suggests `x.ln_1p()`, while `(x + 1.0).ln()`
(constant 1 on the right) suggests nothing. -/
theorem ln1p_left_operand_one_iff_witness :
    check_ln1p ctx_w2 (.methodCall "ln" [.binary .add (.lit "1.0") (.path "x")])
        [.binary .add (.lit "1.0") (.path "x")] =
      some [⟨.methodCall "ln" [.binary .add (.lit "1.0") (.path "x")],
        "ln(1 + x) can be computed more accurately", "consider using",
        "x.ln_1p()", .MachineApplicable⟩]
    ∧ check_ln1p ctx_w2 (.methodCall "ln" [.binary .add (.path "x") (.lit "1.0")])
        [.binary .add (.path "x") (.lit "1.0")] = some [] := by
  constructor
  · exact (ln1p_left_operand_one_iff ctx_w2 _ (.lit "1.0") (.path "x") []).2.1
      false (Or.inr rfl)
  · exact (ln1p_left_operand_one_iff ctx_w2 _ (.path "x") (.lit "1.0") []).2.2
      false rfl (Or.inr rfl)

/-! ## C1: the two `powf` checks and the early return -/

/-- A concrete context where `3.0` folds to constant 3 and `0.5` to
constant 1/2 (both double-width). -/
def ctx_c1 : Context :=
  { expr_ty := fun _ => Ty.f64
  , constant := fun e =>
      match e with
      | .lit "3.0" => some (.F64 3, false)
      | .lit "0.5" => some (.F64 f64_half, false)
      | _ => none }

/-- C1 counterexample: on `3.0.powf(0.5)` — a floating-point receiver that is a
constant equal to neither 2 nor Euler's number, with exponent 1/2 — the matcher
emits nothing at all: the base check's early `return` skips the exponent check,
so no `sqrt` suggestion is produced, contradicting the claim that `x.powf(0.5)`
yields the `x.sqrt()` suggestion for every floating-point receiver. -/
theorem powf_skipped_exponent_counterexample :
    check_expr ctx_c1 (.methodCall "powf" [.lit "3.0", .lit "0.5"]) = some []
    ∧ ¬ emits (check_expr ctx_c1 (.methodCall "powf" [.lit "3.0", .lit "0.5"])) := by
  refine ⟨rfl, ?_⟩
  rintro ⟨L, s, hres, hmem⟩
  rw [show check_expr ctx_c1 (.methodCall "powf" [.lit "3.0", .lit "0.5"]) = some []
    from rfl] at hres
  injection hres with h
  subst h
  exact absurd hmem (List.not_mem_nil s)

/-- C1 amended: on `RECEIVER.powf(ARG)`, the exponent check is attempted whenever
the base check does not hit its early return — that is, when the receiver is
non-constant or folds to 2 or Euler's number. When both checks match (base e,
exponent 1/2) both suggestions are emitted, base suggestion first; but when the
receiver folds to a constant equal to neither 2 nor Euler's number, the matcher
returns before the exponent check and emits nothing, whatever the exponent. -/
theorem check_powf_base_exponent_interaction (cx : Context) (e a0 a1 : Expr)
    (rest : List Expr) :
    (∀ tb te,
      (cx.constant a0 = some (.F32 f32_E, tb) ∨ cx.constant a0 = some (.F64 f64_E, tb)) →
      (cx.constant a1 = some (.F32 f32_half, te) ∨ cx.constant a1 = some (.F64 f64_half, te)) →
      check_powf cx e (a0 :: a1 :: rest) =
        some [⟨e, "exponent for bases 2 and e can be computed more accurately",
               "consider using",
               ((Sugg.hir a1).maybe_par).snippet ++ ".exp()", .MachineApplicable⟩,
              ⟨e, "square-root of a number can be computed more efficiently and accurately",
               "consider using",
               (Sugg.hir a0).snippet ++ ".sqrt()", .MachineApplicable⟩])
    ∧ (∀ te, cx.constant a0 = none →
        (cx.constant a1 = some (.F32 f32_half, te) ∨ cx.constant a1 = some (.F64 f64_half, te)) →
        check_powf cx e (a0 :: a1 :: rest) =
          some [⟨e, "square-root of a number can be computed more efficiently and accurately",
                 "consider using",
                 (Sugg.hir a0).snippet ++ ".sqrt()", .MachineApplicable⟩])
    ∧ (∀ tb vb, cx.constant a0 = some (vb, tb) →
        vb ≠ .F32 f32_E → vb ≠ .F64 f64_E → vb ≠ .F32 2 → vb ≠ .F64 2 →
        check_powf cx e (a0 :: a1 :: rest) = some []) := by
  refine ⟨?_, ?_, ?_⟩
  · rintro tb te (hb | hb) (he | he)
    · have hbm : powf_base_method (.F32 f32_E) = some "exp" := by decide
      have hem : powf_exponent_method (.F32 f32_half) =
        some ("square-root of a number can be computed more efficiently and accurately",
              "sqrt") := by decide
      simp [check_powf, check_powf_exponent, hb, he, hbm, hem, span_lint_and_sugg,
        String.append_assoc]
    · have hbm : powf_base_method (.F32 f32_E) = some "exp" := by decide
      have hem : powf_exponent_method (.F64 f64_half) =
        some ("square-root of a number can be computed more efficiently and accurately",
              "sqrt") := by decide
      simp [check_powf, check_powf_exponent, hb, he, hbm, hem, span_lint_and_sugg,
        String.append_assoc]
    · have hbm : powf_base_method (.F64 f64_E) = some "exp" := by decide
      have hem : powf_exponent_method (.F32 f32_half) =
        some ("square-root of a number can be computed more efficiently and accurately",
              "sqrt") := by decide
      simp [check_powf, check_powf_exponent, hb, he, hbm, hem, span_lint_and_sugg,
        String.append_assoc]
    · have hbm : powf_base_method (.F64 f64_E) = some "exp" := by decide
      have hem : powf_exponent_method (.F64 f64_half) =
        some ("square-root of a number can be computed more efficiently and accurately",
              "sqrt") := by decide
      simp [check_powf, check_powf_exponent, hb, he, hbm, hem, span_lint_and_sugg,
        String.append_assoc]
  · rintro te hb (he | he)
    · have hem : powf_exponent_method (.F32 f32_half) =
        some ("square-root of a number can be computed more efficiently and accurately",
              "sqrt") := by decide
      simp [check_powf, check_powf_exponent, hb, he, hem, span_lint_and_sugg,
        String.append_assoc]
    · have hem : powf_exponent_method (.F64 f64_half) =
        some ("square-root of a number can be computed more efficiently and accurately",
              "sqrt") := by decide
      simp [check_powf, check_powf_exponent, hb, he, hem, span_lint_and_sugg,
        String.append_assoc]
  · intro tb vb hb h1 h2 h3 h4
    simp [check_powf, hb, powf_base_method_eq_none h1 h2 h3 h4]

/-- A concrete context for the amended C1: `E` folds to double-width Euler's
number, `0.5` to 1/2, `3.0` to 3, and `x` is not constant. -/
def ctx_w1 : Context :=
  { expr_ty := fun _ => Ty.f64
  , constant := fun e =>
      match e with
      | .path "E" => some (.F64 f64_E, false)
      | .lit "0.5" => some (.F64 f64_half, false)
      | .lit "3.0" => some (.F64 3, false)
      | _ => none }

/-- Witness for the amended C1: `E.powf(0.5)` emits both the `exp` and the
`sqrt` suggestions; `x.powf(0.5)` (non-constant receiver) emits the `sqrt`
suggestion; `3.0.powf(0.5)` emits nothing. -/
theorem check_powf_base_exponent_interaction_witness :
    check_powf ctx_w1 (.methodCall "powf" [.path "E", .lit "0.5"])
        [.path "E", .lit "0.5"] =
      some [⟨.methodCall "powf" [.path "E", .lit "0.5"],
        "exponent for bases 2 and e can be computed more accurately",
        "consider using", "0.5.exp()", .MachineApplicable⟩,
        ⟨.methodCall "powf" [.path "E", .lit "0.5"],
        "square-root of a number can be computed more efficiently and accurately",
        "consider using", "E.sqrt()", .MachineApplicable⟩]
    ∧ check_powf ctx_w1 (.methodCall "powf" [.path "x", .lit "0.5"])
        [.path "x", .lit "0.5"] =
      some [⟨.methodCall "powf" [.path "x", .lit "0.5"],
        "square-root of a number can be computed more efficiently and accurately",
        "consider using", "x.sqrt()", .MachineApplicable⟩]
    ∧ check_powf ctx_w1 (.methodCall "powf" [.lit "3.0", .lit "0.5"])
        [.lit "3.0", .lit "0.5"] = some [] := by
  refine ⟨?_, ?_, ?_⟩
  · exact (check_powf_base_exponent_interaction ctx_w1 _ (.path "E") (.lit "0.5") []).1
      false false (Or.inr rfl) (Or.inr rfl)
  · exact (check_powf_base_exponent_interaction ctx_w1 _ (.path "x") (.lit "0.5") []).2.1
      false rfl (Or.inr rfl)
  · exact (check_powf_base_exponent_interaction ctx_w1 _ (.lit "3.0") (.lit "0.5") []).2.2
      false (.F64 3) rfl (by decide) (by decide) (by decide) (by decide)

/-! ## C3: re-running the analysis on rewritten expressions -/

theorem not_emits_of_eq_empty {o : Option (List Suggestion)} (h : o = some []) :
    ¬ emits o := by
  rintro ⟨L, s, hres, hmem⟩
  rw [h] at hres
  injection hres with hL
  subst hL
  exact absurd hmem (List.not_mem_nil s)

/-- A concrete context where `1.0` folds to constant 1 and `E` to Euler's
number (double width). -/
def ctx_c3 : Context :=
  { expr_ty := fun _ => Ty.f64
  , constant := fun e =>
      match e with
      | .lit "1.0" => some (.F64 1, false)
      | .path "E" => some (.F64 f64_E, false)
      | _ => none }

/-- C3 counterexample: `(1.0 + x).log(E)` is rewritten to `(1.0 + x).ln()`
(the emitted replacement text equals the snippet of that rewritten node), and
re-running the analysis on the rewritten sub-expression emits a further
suggestion, `x.ln_1p()` — so the suggested-rewrite analysis is not idempotent
for every receiver. -/
theorem log_e_rewrite_not_idempotent_counterexample :
    check_expr ctx_c3 (.methodCall "log" [.binary .add (.lit "1.0") (.path "x"), .path "E"]) =
      some [⟨.methodCall "log" [.binary .add (.lit "1.0") (.path "x"), .path "E"],
        "logarithm for bases 2, 10 and e can be computed more accurately",
        "consider using", "(1.0 + x).ln()", .MachineApplicable⟩]
    ∧ render (.methodCall "ln" [.binary .add (.lit "1.0") (.path "x")]) = "(1.0 + x).ln()"
    ∧ check_expr ctx_c3 (.methodCall "ln" [.binary .add (.lit "1.0") (.path "x")]) =
      some [⟨.methodCall "ln" [.binary .add (.lit "1.0") (.path "x")],
        "ln(1 + x) can be computed more accurately", "consider using",
        "x.ln_1p()", .MachineApplicable⟩]
    ∧ emits (check_expr ctx_c3 (.methodCall "ln" [.binary .add (.lit "1.0") (.path "x")])) := by
  refine ⟨rfl, rfl, rfl, ⟨_, _, rfl, List.mem_singleton.2 rfl⟩⟩

/-- C3 amended: re-running the analysis on a rewritten sub-expression emits
nothing, for every rewrite target this analysis can produce — a method call
named `sqrt`, `cbrt`, `exp`, `exp2`, `log2`, `log10`, `ln_1p` or `exp_m1` —
and for the `ln` rewrite target whenever the receiver is not a binary addition
whose left operand folds to the constant 1; in that excepted case (shown by the
counterexample) the `ln_1p` suggestion fires on the rewritten expression. -/
theorem rewritten_subexpression_no_further_suggestion (cx : Context) (r : Expr) :
    (∀ name, (name = "sqrt" ∨ name = "cbrt" ∨ name = "exp" ∨ name = "exp2" ∨
        name = "log2" ∨ name = "log10" ∨ name = "ln_1p" ∨ name = "exp_m1") →
      check_expr cx (.methodCall name [r]) = some [])
    ∧ ((∀ l rr, r = .binary .add l rr →
          ∀ t, cx.constant l ≠ some (.F32 1, t) ∧ cx.constant l ≠ some (.F64 1, t)) →
        check_expr cx (.methodCall "ln" [r]) = some []) := by
  constructor
  · rintro name (h | h | h | h | h | h | h | h) <;> subst h <;>
      cases hty : (cx.expr_ty r).is_floating_point <;> simp [check_expr, hty]
  · intro h
    cases hty : (cx.expr_ty r).is_floating_point
    · simp [check_expr, hty]
    · match r, h with
      | .lit s, _ => simp [check_expr, hty, check_ln1p]
      | .path s, _ => simp [check_expr, hty, check_ln1p]
      | .methodCall n as, _ => simp [check_expr, hty, check_ln1p]
      | .binary .sub l rr, _ => simp [check_expr, hty, check_ln1p]
      | .binary .mul l rr, _ => simp [check_expr, hty, check_ln1p]
      | .binary .div l rr, _ => simp [check_expr, hty, check_ln1p]
      | .binary .add l rr, h =>
        match hc : cx.constant l with
        | none => simp [check_expr, hty, check_ln1p, hc]
        | some (v, t) =>
          have hv : ¬ (Constant.F32 1 = v ∨ Constant.F64 1 = v) := by
            rintro (hh | hh)
            · exact (h l rr rfl t).1 (by rw [← hh] at hc; exact hc)
            · exact (h l rr rfl t).2 (by rw [← hh] at hc; exact hc)
          simp [check_expr, hty, check_ln1p, hc, hv]

/-- Witness for the amended C3: on concrete rewritten expressions `x.sqrt()`
and `x.ln()` (receiver not an addition), re-analysis emits nothing. -/
theorem rewritten_subexpression_no_further_suggestion_witness :
    check_expr ctx_c3 (.methodCall "sqrt" [.path "x"]) = some []
    ∧ check_expr ctx_c3 (.methodCall "ln" [.path "x"]) = some [] := by
  constructor
  · exact (rewritten_subexpression_no_further_suggestion ctx_c3 (.path "x")).1
      "sqrt" (Or.inl rfl)
  · exact (rewritten_subexpression_no_further_suggestion ctx_c3 (.path "x")).2
      (fun l rr h => Expr.noConfusion h)

/-! ## C4: the exp(x) - 1 matcher -/

/-- A concrete context where only `1.0` folds to a constant (double-width 1). -/
def ctx_c4 : Context :=
  { expr_ty := fun _ => Ty.f64
  , constant := fun e =>
      match e with
      | .lit "1.0" => some (.F64 1, false)
      | _ => none }

/-- C4 counterexample: on `a.exp(b) - 1.0`, where the call named `exp` has two
operand positions (receiver `a` and argument `b`), the matcher still emits the
`a.exp_m1()` suggestion — the source never checks the arity of the `exp`
call — contradicting the claim that such a call never triggers it. -/
theorem expm1_arity_unchecked_counterexample :
    check_expr ctx_c4
        (.binary .sub (.methodCall "exp" [.path "a", .path "b"]) (.lit "1.0")) =
      some [⟨.binary .sub (.methodCall "exp" [.path "a", .path "b"]) (.lit "1.0"),
        "(e.pow(x) - 1) can be computed more accurately", "consider using",
        "a.exp_m1()", .MachineApplicable⟩]
    ∧ [Expr.path "a", Expr.path "b"].length = 2
    ∧ emits (check_expr ctx_c4
        (.binary .sub (.methodCall "exp" [.path "a", .path "b"]) (.lit "1.0"))) := by
  exact ⟨rfl, rfl, ⟨_, _, rfl, List.mem_singleton.2 rfl⟩⟩

/-- C4 amended: the `exp_m1` suggestion is emitted iff the node is a binary
subtraction whose left side has floating-point static type and is a method call
named `exp` with at least one operand position, and whose right side folds to
the constant 1 (either width); the arity of the `exp` call is not checked, so
calls with extra operand positions also trigger (using the first operand). -/
theorem check_expm1_characterization (cx : Context) (e : Expr) :
    emits (check_expm1 cx e) ↔
      ∃ m0 margs rhs v t,
        e = .binary .sub (.methodCall "exp" (m0 :: margs)) rhs ∧
        (cx.expr_ty (.methodCall "exp" (m0 :: margs))).is_floating_point = true ∧
        cx.constant rhs = some (v, t) ∧ (v = .F32 1 ∨ v = .F64 1) := by
  constructor
  · intro hem
    match e with
    | .lit s => exact absurd hem (not_emits_of_eq_empty rfl)
    | .path s => exact absurd hem (not_emits_of_eq_empty rfl)
    | .methodCall n as => exact absurd hem (not_emits_of_eq_empty rfl)
    | .binary .add lhs rhs =>
        exact absurd hem (not_emits_of_eq_empty (by simp [check_expm1]))
    | .binary .mul lhs rhs =>
        exact absurd hem (not_emits_of_eq_empty (by simp [check_expm1]))
    | .binary .div lhs rhs =>
        exact absurd hem (not_emits_of_eq_empty (by simp [check_expm1]))
    | .binary .sub lhs rhs =>
      match hty : (cx.expr_ty lhs).is_floating_point with
      | false => exact absurd hem (not_emits_of_eq_empty (by simp [check_expm1, hty]))
      | true =>
        match hc : cx.constant rhs with
        | none => exact absurd hem (not_emits_of_eq_empty (by simp [check_expm1, hty, hc]))
        | some (v, t) =>
          by_cases hv : Constant.F32 1 = v ∨ Constant.F64 1 = v
          · match lhs, hty with
            | .lit s, _ =>
                exact absurd hem (not_emits_of_eq_empty (by simp [check_expm1, hty, hc, hv]))
            | .path s, _ =>
                exact absurd hem (not_emits_of_eq_empty (by simp [check_expm1, hty, hc, hv]))
            | .binary o l2 r2, _ =>
                exact absurd hem (not_emits_of_eq_empty (by simp [check_expm1, hty, hc, hv]))
            | .methodCall n margs, hty =>
              by_cases hn : n = "exp"
              · subst hn
                match margs, hty with
                | [], hty2 =>
                  obtain ⟨L, s, hres, hmem⟩ := hem
                  rw [show check_expm1 cx
                      (.binary .sub (.methodCall "exp" []) rhs) = none by
                    simp [check_expm1, hty2, hc, hv]] at hres
                  exact Option.noConfusion hres
                | m0 :: ms, hty =>
                  refine ⟨m0, ms, rhs, v, t, rfl, hty, hc, ?_⟩
                  rcases hv with h | h
                  · exact Or.inl h.symm
                  · exact Or.inr h.symm
              · exact absurd hem (not_emits_of_eq_empty (by simp [check_expm1, hty, hc, hv, hn]))
          · exact absurd hem (not_emits_of_eq_empty (by simp [check_expm1, hty, hc, hv]))
  · rintro ⟨m0, margs, rhs, v, t, rfl, hty, hc, hv⟩
    have hres : check_expm1 cx
        (.binary .sub (.methodCall "exp" (m0 :: margs)) rhs) =
        some [⟨.binary .sub (.methodCall "exp" (m0 :: margs)) rhs,
          "(e.pow(x) - 1) can be computed more accurately", "consider using",
          (Sugg.hir m0).snippet ++ ".exp_m1()", .MachineApplicable⟩] := by
      rcases hv with rfl | rfl <;> simp [check_expm1, hty, hc, span_lint_and_sugg]
    exact ⟨_, _, hres, List.mem_singleton.2 rfl⟩

/-- Witness for the amended C4: `a.exp() - 1.0` (ordinary one-operand `exp`
call) emits its suggestion, via the backward direction of the
characterization. -/
theorem check_expm1_characterization_witness :
    emits (check_expm1 ctx_c4
      (.binary .sub (.methodCall "exp" [.path "a"]) (.lit "1.0"))) := by
  exact (check_expm1_characterization ctx_c4
      (.binary .sub (.methodCall "exp" [.path "a"]) (.lit "1.0"))).2
    ⟨.path "a", [], .lit "1.0", .F64 1, false, rfl, rfl, rfl, Or.inr rfl⟩

/-! ## C5: the sqrt/cbrt replacement text -/

/-- A concrete context where only `0.5` folds to a constant (double-width 1/2). -/
def ctx_c5 : Context :=
  { expr_ty := fun _ => Ty.f64
  , constant := fun e =>
      match e with
      | .lit "0.5" => some (.F64 f64_half, false)
      | _ => none }

/-- C5 (exhibits the divergence): on `(a + b).powf(0.5)` the emitted replacement
text is `"a + b.sqrt()"` — line 162 builds it from the receiver's snippet
without `maybe_par`, unlike the parallel sites at lines 66, 102 and 136 — which
differs from the sqrt method call applied to the whole receiver expression,
whose snippet is `"(a + b).sqrt()"`. -/
theorem powf_sqrt_replacement_missing_parens :
    check_expr ctx_c5
        (.methodCall "powf" [.binary .add (.path "a") (.path "b"), .lit "0.5"]) =
      some [⟨.methodCall "powf" [.binary .add (.path "a") (.path "b"), .lit "0.5"],
        "square-root of a number can be computed more efficiently and accurately",
        "consider using", "a + b.sqrt()", .MachineApplicable⟩]
    ∧ ((Sugg.hir (.binary .add (.path "a") (.path "b"))).maybe_par).snippet ++ ".sqrt()" =
        "(a + b).sqrt()"
    ∧ render (.methodCall "sqrt" [.binary .add (.path "a") (.path "b")]) = "(a + b).sqrt()"
    ∧ ("a + b.sqrt()" : String) ≠ "(a + b).sqrt()" := by
  exact ⟨rfl, rfl, rfl, by decide⟩

/-! ## C7: width-tag exactness of the constant comparisons -/

/-- C7: a single-width constant never equals a double-width one (the width tag
separates them), and every matcher accepts its target constant in either width:
the log-base selection maps 2/10/e of both widths to the same method, the powf
base selection maps e and 2 of both widths to the same method, the powf
exponent selection maps the width-matched 1/2 and 1/3 values of both widths to
the same help/method pair, and the ln_1p and exp_m1 matchers produce identical
output whether the constant 1 is reported single- or double-width. -/
theorem width_tag_exactness :
    (∀ x y : ℚ, Constant.F32 x ≠ Constant.F64 y)
    ∧ (log_base_method (.F32 2) = some "log2" ∧ log_base_method (.F64 2) = some "log2"
       ∧ log_base_method (.F32 10) = some "log10" ∧ log_base_method (.F64 10) = some "log10"
       ∧ log_base_method (.F32 f32_E) = some "ln" ∧ log_base_method (.F64 f64_E) = some "ln")
    ∧ (powf_base_method (.F32 f32_E) = some "exp" ∧ powf_base_method (.F64 f64_E) = some "exp"
       ∧ powf_base_method (.F32 2) = some "exp2" ∧ powf_base_method (.F64 2) = some "exp2")
    ∧ (powf_exponent_method (.F32 f32_half) = powf_exponent_method (.F64 f64_half)
       ∧ powf_exponent_method (.F32 f32_one_third) = powf_exponent_method (.F64 f64_one_third)
       ∧ powf_exponent_method (.F32 f32_half) =
           some ("square-root of a number can be computed more efficiently and accurately",
                 "sqrt")
       ∧ powf_exponent_method (.F32 f32_one_third) =
           some ("cube-root of a number can be computed more accurately", "cbrt"))
    ∧ (∀ cx cx' : Context, ∀ e l r : Expr, ∀ rest : List Expr, ∀ t t' : Bool,
        cx.constant l = some (.F32 1, t) → cx'.constant l = some (.F64 1, t') →
        check_ln1p cx e (.binary .add l r :: rest) =
          check_ln1p cx' e (.binary .add l r :: rest))
    ∧ (∀ cx cx' : Context, ∀ lhs rhs : Expr, ∀ t t' : Bool,
        cx.expr_ty lhs = cx'.expr_ty lhs →
        cx.constant rhs = some (.F32 1, t) → cx'.constant rhs = some (.F64 1, t') →
        check_expm1 cx (.binary .sub lhs rhs) = check_expm1 cx' (.binary .sub lhs rhs)) := by
  refine ⟨fun x y h => Constant.noConfusion h, by decide, by decide, by decide, ?_, ?_⟩
  · intro cx cx' e l r rest t t' h h'
    simp [check_ln1p, h, h']
  · intro cx cx' lhs rhs t t' hty h h'
    cases lhs <;> simp [check_expm1, h, h', ← hty]

/-- Single-width context: `1.0` folds to the single-width constant 1. -/
def ctx_w7a : Context :=
  { expr_ty := fun _ => Ty.f32
  , constant := fun e =>
      match e with
      | .lit "1.0" => some (.F32 1, false)
      | _ => none }

/-- Double-width context: `1.0` folds to the double-width constant 1. -/
def ctx_w7b : Context :=
  { expr_ty := fun _ => Ty.f32
  , constant := fun e =>
      match e with
      | .lit "1.0" => some (.F64 1, false)
      | _ => none }

/-- Witness for C7: the ln_1p and exp_m1 matchers behave identically on the same
nodes when the evaluator reports the constant 1 single-width versus
double-width. -/
theorem width_tag_exactness_witness :
    check_ln1p ctx_w7a (.methodCall "ln" [.binary .add (.lit "1.0") (.path "x")])
        [.binary .add (.lit "1.0") (.path "x")] =
      check_ln1p ctx_w7b (.methodCall "ln" [.binary .add (.lit "1.0") (.path "x")])
        [.binary .add (.lit "1.0") (.path "x")]
    ∧ check_expm1 ctx_w7a (.binary .sub (.methodCall "exp" [.path "x"]) (.lit "1.0")) =
      check_expm1 ctx_w7b (.binary .sub (.methodCall "exp" [.path "x"]) (.lit "1.0")) := by
  constructor
  · exact width_tag_exactness.2.2.2.2.1 ctx_w7a ctx_w7b
      (.methodCall "ln" [.binary .add (.lit "1.0") (.path "x")])
      (.lit "1.0") (.path "x") [] false false rfl rfl
  · exact width_tag_exactness.2.2.2.2.2 ctx_w7a ctx_w7b
      (.methodCall "exp" [.path "x"]) (.lit "1.0") false false rfl rfl rfl

/-! ## C8: the dispatcher -/

/-- C8: for every visited node — a named method call with floating-point
receiver dispatches exactly by method name (`ln` to the ln_1p matcher, `log` to
the log-base matcher, `powf` to the powf matcher, anything else to no matcher);
a method call with a non-floating-point receiver invokes no matcher at all; a
node that is not a method call is handed only to the exp_m1 matcher. -/
theorem check_expr_dispatch_rule (cx : Context) :
    (∀ name : String, ∀ a0 : Expr, ∀ rest : List Expr,
      (cx.expr_ty a0).is_floating_point = true →
      (name = "ln" →
        check_expr cx (.methodCall name (a0 :: rest)) =
          check_ln1p cx (.methodCall name (a0 :: rest)) (a0 :: rest))
      ∧ (name = "log" →
        check_expr cx (.methodCall name (a0 :: rest)) =
          check_log_base cx (.methodCall name (a0 :: rest)) (a0 :: rest))
      ∧ (name = "powf" →
        check_expr cx (.methodCall name (a0 :: rest)) =
          check_powf cx (.methodCall name (a0 :: rest)) (a0 :: rest))
      ∧ (name ≠ "ln" → name ≠ "log" → name ≠ "powf" →
        check_expr cx (.methodCall name (a0 :: rest)) = some []))
    ∧ (∀ name : String, ∀ a0 : Expr, ∀ rest : List Expr,
        (cx.expr_ty a0).is_floating_point = false →
        check_expr cx (.methodCall name (a0 :: rest)) = some [])
    ∧ (∀ e : Expr, (∀ name args, e ≠ .methodCall name args) →
        check_expr cx e = check_expm1 cx e) := by
  refine ⟨?_, ?_, ?_⟩
  · intro name a0 rest hfp
    refine ⟨?_, ?_, ?_, ?_⟩
    · rintro rfl; simp [check_expr, hfp]
    · rintro rfl; simp [check_expr, hfp]
    · rintro rfl; simp [check_expr, hfp]
    · intro h1 h2 h3
      simp only [check_expr, List.getElem?_cons_zero, hfp, if_true]
  · intro name a0 rest hfp
    simp [check_expr, hfp]
  · intro e h
    match e with
    | .lit s => rfl
    | .path s => rfl
    | .binary op l r => rfl
    | .methodCall name args => exact absurd rfl (h name args)

/-- A context in which `i` has integer static type and everything else is
double-width floating point; no expression folds to a constant. -/
def ctx_w8 : Context :=
  { expr_ty := fun e =>
      match e with
      | .path "i" => Ty.int
      | _ => Ty.f64
  , constant := fun _ => none }

/-- Witness for C8 at concrete nodes: `x.ln(..)`, `x.log(..)` and `x.powf(..)`
dispatch to their matchers; `x.sin()` dispatches to none; `i.ln()` with integer
receiver invokes nothing; a subtraction node goes to the exp_m1 matcher. -/
theorem check_expr_dispatch_rule_witness :
    check_expr ctx_w8 (.methodCall "ln" [.path "x"]) =
      check_ln1p ctx_w8 (.methodCall "ln" [.path "x"]) [.path "x"]
    ∧ check_expr ctx_w8 (.methodCall "log" [.path "x", .path "y"]) =
      check_log_base ctx_w8 (.methodCall "log" [.path "x", .path "y"]) [.path "x", .path "y"]
    ∧ check_expr ctx_w8 (.methodCall "powf" [.path "x", .path "y"]) =
      check_powf ctx_w8 (.methodCall "powf" [.path "x", .path "y"]) [.path "x", .path "y"]
    ∧ check_expr ctx_w8 (.methodCall "sin" [.path "x"]) = some []
    ∧ check_expr ctx_w8 (.methodCall "ln" [.path "i"]) = some []
    ∧ check_expr ctx_w8 (.binary .sub (.path "x") (.path "y")) =
      check_expm1 ctx_w8 (.binary .sub (.path "x") (.path "y")) := by
  refine ⟨?_, ?_, ?_, ?_, ?_, ?_⟩
  · exact ((check_expr_dispatch_rule ctx_w8).1 "ln" (.path "x") [] rfl).1 rfl
  · exact ((check_expr_dispatch_rule ctx_w8).1 "log" (.path "x") [.path "y"] rfl).2.1 rfl
  · exact ((check_expr_dispatch_rule ctx_w8).1 "powf" (.path "x") [.path "y"] rfl).2.2.1 rfl
  · exact ((check_expr_dispatch_rule ctx_w8).1 "sin" (.path "x") [] rfl).2.2.2
      (by decide) (by decide) (by decide)
  · exact (check_expr_dispatch_rule ctx_w8).2.1 "ln" (.path "i") [] rfl
  · exact (check_expr_dispatch_rule ctx_w8).2.2 (.binary .sub (.path "x") (.path "y"))
      (fun name args h => Expr.noConfusion h)

/-! ## Totality of the matchers under the HIR arity guarantees -/

theorem check_log_base_isSome (cx : Context) (e a0 a1 : Expr) (rest : List Expr) :
    (check_log_base cx e (a0 :: a1 :: rest)).isSome := by
  simp only [check_log_base, List.getElem?_cons_zero, List.getElem?_cons_succ]
  repeat' split
  all_goals simp

theorem check_powf_exponent_isSome (cx : Context) (e a0 a1 : Expr) (rest : List Expr) :
    (check_powf_exponent cx e (a0 :: a1 :: rest)).isSome := by
  simp only [check_powf_exponent, List.getElem?_cons_zero, List.getElem?_cons_succ]
  repeat' split
  all_goals simp

theorem check_powf_isSome (cx : Context) (e a0 a1 : Expr) (rest : List Expr) :
    (check_powf cx e (a0 :: a1 :: rest)).isSome := by
  have hexp := check_powf_exponent_isSome cx e a0 a1 rest
  obtain ⟨L, hL⟩ := Option.isSome_iff_exists.1 hexp
  simp only [check_powf, List.getElem?_cons_zero, List.getElem?_cons_succ]
  split
  · split
    · simp [hL]
    · simp
  · exact hexp

theorem check_ln1p_isSome (cx : Context) (e a0 : Expr) (rest : List Expr) :
    (check_ln1p cx e (a0 :: rest)).isSome := by
  simp only [check_ln1p, List.getElem?_cons_zero]
  repeat' split
  all_goals simp

theorem check_expm1_isSome (cx : Context) (e : Expr) (h : nodeWF e) :
    (check_expm1 cx e).isSome := by
  match e with
  | .lit s => simp [check_expm1]
  | .path s => simp [check_expm1]
  | .methodCall n as => simp [check_expm1]
  | .binary op lhs rhs =>
    match lhs, h with
    | .lit s, _ =>
      simp only [check_expm1]
      repeat' split
      all_goals simp
    | .path s, _ =>
      simp only [check_expm1]
      repeat' split
      all_goals simp
    | .binary o2 l2 r2, _ =>
      simp only [check_expm1]
      repeat' split
      all_goals simp
    | .methodCall m margs, h =>
      match margs, h with
      | [], h => exact absurd rfl h
      | m0 :: ms, _ =>
        simp only [check_expm1, List.getElem?_cons_zero]
        repeat' split
        all_goals simp

theorem check_expr_isSome (cx : Context) (e : Expr) (h : nodeWF e) :
    (check_expr cx e).isSome := by
  match e with
  | .lit s => simp [check_expr, check_expm1]
  | .path s => simp [check_expr, check_expm1]
  | .binary op lhs rhs => exact check_expm1_isSome cx _ h
  | .methodCall name args =>
    obtain ⟨hne, hlen⟩ := h
    match args, hne, hlen with
    | a0 :: rest, _, hlen =>
      simp only [check_expr, List.getElem?_cons_zero]
      cases hfp : (cx.expr_ty a0).is_floating_point
      · simp [hfp]
      · simp only [hfp, if_true]
        split
        · exact check_ln1p_isSome cx _ a0 rest
        · match rest, hlen (Or.inl rfl) with
          | a1 :: rest2, _ => exact check_log_base_isSome cx _ a0 a1 rest2
        · match rest, hlen (Or.inr rfl) with
          | a1 :: rest2, _ => exact check_powf_isSome cx _ a0 a1 rest2
        · simp

/-! ## C9: graceful degradation, no failure outcome -/

/-- C9: whenever the constant evaluator returns `none` for the operand position
a matcher inspects, or a structural precondition is unmet, that matcher returns
normally with no suggestion; and on every well-formed node the whole analysis
returns normally with a (possibly empty) suggestion list — there is no failure
outcome. -/
theorem matchers_no_failure_outcome (cx : Context) :
    (∀ e a0 a1 : Expr, ∀ rest : List Expr, cx.constant a1 = none →
      check_log_base cx e (a0 :: a1 :: rest) = some [])
    ∧ (∀ e a0 a1 : Expr, ∀ rest : List Expr,
        cx.constant a0 = none → cx.constant a1 = none →
        check_powf cx e (a0 :: a1 :: rest) = some [])
    ∧ (∀ e a0 : Expr, ∀ rest : List Expr, (∀ op l r, a0 ≠ .binary op l r) →
        check_ln1p cx e (a0 :: rest) = some [])
    ∧ (∀ e l r : Expr, ∀ rest : List Expr, cx.constant l = none →
        check_ln1p cx e (.binary .add l r :: rest) = some [])
    ∧ (∀ lhs rhs : Expr, cx.constant rhs = none →
        check_expm1 cx (.binary .sub lhs rhs) = some [])
    ∧ (∀ e : Expr, (∀ op l r, e ≠ .binary op l r) → check_expm1 cx e = some [])
    ∧ (∀ e : Expr, nodeWF e → (check_expr cx e).isSome) := by
  refine ⟨?_, ?_, ?_, ?_, ?_, ?_, check_expr_isSome cx⟩
  · intro e a0 a1 rest h
    simp [check_log_base, h]
  · intro e a0 a1 rest h0 h1
    simp [check_powf, check_powf_exponent, h0, h1]
  · intro e a0 rest h
    match a0, h with
    | .lit s, _ => simp [check_ln1p]
    | .path s, _ => simp [check_ln1p]
    | .methodCall n as, _ => simp [check_ln1p]
    | .binary op l r, h => exact absurd rfl (h op l r)
  · intro e l r rest h
    simp [check_ln1p, h]
  · intro lhs rhs h
    cases hfp : (cx.expr_ty lhs).is_floating_point <;> simp [check_expm1, h, hfp]
  · intro e h
    match e, h with
    | .lit s, _ => simp [check_expm1]
    | .path s, _ => simp [check_expm1]
    | .methodCall n as, _ => simp [check_expm1]
    | .binary op l r, h => exact absurd rfl (h op l r)

/-- A context whose evaluator finds no constants at all. -/
def ctx_w9 : Context :=
  { expr_ty := fun _ => Ty.f64
  , constant := fun _ => none }

/-- Witness for C9 at concrete nodes: with an evaluator that folds nothing,
every matcher returns normally with no suggestion, and the analysis of a
well-formed `powf` node succeeds. -/
theorem matchers_no_failure_outcome_witness :
    check_log_base ctx_w9 (.path "s") [.path "x", .path "y"] = some []
    ∧ check_powf ctx_w9 (.path "s") [.path "x", .path "y"] = some []
    ∧ check_ln1p ctx_w9 (.path "s") [.path "x"] = some []
    ∧ check_ln1p ctx_w9 (.path "s") [.binary .add (.path "x") (.path "y")] = some []
    ∧ check_expm1 ctx_w9 (.binary .sub (.path "x") (.path "y")) = some []
    ∧ check_expm1 ctx_w9 (.path "x") = some []
    ∧ (check_expr ctx_w9 (.methodCall "powf" [.path "x", .path "y"])).isSome := by
  refine ⟨?_, ?_, ?_, ?_, ?_, ?_, ?_⟩
  · exact (matchers_no_failure_outcome ctx_w9).1 (.path "s") (.path "x") (.path "y") [] rfl
  · exact (matchers_no_failure_outcome ctx_w9).2.1 (.path "s") (.path "x") (.path "y") [] rfl rfl
  · exact (matchers_no_failure_outcome ctx_w9).2.2.1 (.path "s") (.path "x") []
      (fun op l r h => Expr.noConfusion h)
  · exact (matchers_no_failure_outcome ctx_w9).2.2.2.1 (.path "s") (.path "x") (.path "y") [] rfl
  · exact (matchers_no_failure_outcome ctx_w9).2.2.2.2.1 (.path "x") (.path "y") rfl
  · exact (matchers_no_failure_outcome ctx_w9).2.2.2.2.2.1 (.path "x")
      (fun op l r h => Expr.noConfusion h)
  · exact (matchers_no_failure_outcome ctx_w9).2.2.2.2.2.2
      (.methodCall "powf" [.path "x", .path "y"]) (by simp [nodeWF])

/-! ## C10: the unchecked operand-position accesses are in bounds -/

/-- C10: the log-base and powf matchers read operand position 1 without a length
check, the exp_m1 matcher reads position 0 of the matched `exp` call, and the
ln_1p matcher and the dispatcher read position 0 of the method call; under the
precondition that a node dispatched as `log`/`powf` carries at least two operand
positions and that a method call carries at least its receiver, every such
access is in bounds, so the out-of-bounds outcome (`none` in this model) is
unreachable. -/
theorem operand_accesses_in_bounds :
    (∀ cx : Context, ∀ e : Expr, ∀ args : List Expr, 2 ≤ args.length →
      (check_log_base cx e args).isSome ∧ (check_powf cx e args).isSome)
    ∧ (∀ cx : Context, ∀ e : Expr, ∀ args : List Expr, args ≠ [] →
        (check_ln1p cx e args).isSome)
    ∧ (∀ cx : Context, ∀ m : String, ∀ margs : List Expr, ∀ rhs : Expr, margs ≠ [] →
        (check_expm1 cx (.binary .sub (.methodCall m margs) rhs)).isSome)
    ∧ (∀ cx : Context, ∀ name : String, ∀ args : List Expr, args ≠ [] →
        ((name = "log" ∨ name = "powf") → 2 ≤ args.length) →
        (check_expr cx (.methodCall name args)).isSome) := by
  refine ⟨?_, ?_, ?_, ?_⟩
  · intro cx e args hlen
    match args, hlen with
    | a0 :: a1 :: rest, _ =>
      exact ⟨check_log_base_isSome cx e a0 a1 rest, check_powf_isSome cx e a0 a1 rest⟩
  · intro cx e args hne
    match args, hne with
    | a0 :: rest, _ => exact check_ln1p_isSome cx e a0 rest
  · intro cx m margs rhs hne
    exact check_expm1_isSome cx _ hne
  · intro cx name args hne hlen
    exact check_expr_isSome cx _ ⟨hne, hlen⟩

/-- Witness for C10: the accesses are in bounds on concrete two-operand `log`
and `powf` nodes, a one-operand `ln` node, and a subtraction of an `exp` call. -/
theorem operand_accesses_in_bounds_witness :
    (check_log_base ctx_w9 (.path "s") [.path "x", .path "y"]).isSome
    ∧ (check_powf ctx_w9 (.path "s") [.path "x", .path "y"]).isSome
    ∧ (check_ln1p ctx_w9 (.path "s") [.path "x"]).isSome
    ∧ (check_expm1 ctx_w9 (.binary .sub (.methodCall "exp" [.path "x"]) (.path "y"))).isSome
    ∧ (check_expr ctx_w9 (.methodCall "log" [.path "x", .path "y"])).isSome := by
  refine ⟨?_, ?_, ?_, ?_, ?_⟩
  · exact (operand_accesses_in_bounds.1 ctx_w9 (.path "s") [.path "x", .path "y"]
      (by decide)).1
  · exact (operand_accesses_in_bounds.1 ctx_w9 (.path "s") [.path "x", .path "y"]
      (by decide)).2
  · exact operand_accesses_in_bounds.2.1 ctx_w9 (.path "s") [.path "x"]
      (List.cons_ne_nil _ _)
  · exact operand_accesses_in_bounds.2.2.1 ctx_w9 "exp" [.path "x"] (.path "y")
      (List.cons_ne_nil _ _)
  · exact operand_accesses_in_bounds.2.2.2 ctx_w9 "log" [.path "x", .path "y"]
      (List.cons_ne_nil _ _) (fun _ => by decide)
